import Mathlib

/-!
Verification of the dependency-graph extractor `doxdepends.py`.

The program parses Doxygen XML output and emits a Graphviz dot file of
class-to-class dependencies, clustered by Doxygen group.  This file gives a
shallow embedding of the program: the XML corpus is a record-fetch function,
the `Grapher` object's four dictionaries become a `GState` record of
association lists (Python dicts preserve insertion order, which the
association lists mirror), Python sets of refids become duplicate-free lists
in insertion order, and functions that can raise `KeyError` return `Option`.
Everything is computable so that concrete corpora can be evaluated with
`decide`.
-/

namespace Dox

/-! ### String primitives

Lean core string functions do not reduce well in the kernel, so the string
operations the program uses (`startswith`, `replace`, `rsplit`, `sorted`,
`join`) are modelled by structurally recursive functions over `String.data`
with the same semantics as their Python counterparts.
-/

/-- Comparison of char lists by code point, Python's lexicographic `<=` on
strings. -/
def charListLe : List Char → List Char → Bool
  | [], _ => true
  | _ :: _, [] => false
  | a :: as, b :: bs => if a < b then true else if b < a then false else charListLe as bs

/-- Python string `<=` (code-point lexicographic order). -/
def strLe (a b : String) : Bool := charListLe a.data b.data

/-- Python `sorted` on a list of strings: the unique ascending reordering. -/
def sortStr (l : List String) : List String :=
  List.insertionSort (fun a b => strLe a b = true) l

/-- Python `s.startswith(pre)`. -/
def strStartsWith (s pre : String) : Bool := pre.data.isPrefixOf s.data

/-- Worker for `removeAll`.  The counter skips over the remainder of a match
so that occurrences are consumed left to right without overlap, exactly as
Python `str.replace` does.  The `pat ≠ []` guard is never hit by the program,
which only ever removes `target_namespace + "::"`. -/
def removeAllGo (pat : List Char) : List Char → Nat → List Char
  | [], _ => []
  | _ :: rest, k+1 => removeAllGo pat rest k
  | c :: rest, 0 =>
    if pat ≠ [] ∧ pat.isPrefixOf (c :: rest) then removeAllGo pat rest (pat.length - 1)
    else c :: removeAllGo pat rest 0

/-- Python `s.replace(pat, '')`: remove every (left-to-right, non-overlapping)
occurrence of `pat`. -/
def removeAll (pat s : List Char) : List Char := removeAllGo pat s 0

/-- Python `s.rsplit('_', 1)[0]`: everything before the last underscore, or
the whole string when no underscore occurs. -/
def rsplitLast (s : String) : String :=
  if '_' ∈ s.data then String.mk (((s.data.reverse.dropWhile (fun c => c ≠ '_')).drop 1).reverse)
  else s

/-- Python `sep.join(l)`. -/
def joinSep (sep : String) : List String → String
  | [] => ""
  | [a] => a
  | a :: rest => a ++ sep ++ joinSep sep rest

/-! ### Python dictionaries

A Python dict is modelled as an association list in insertion order;
`pyUpdate` is `d[k] = v` (replace in place, else append) and `pyLookup` is
`d.get(k)`. -/

/-- Python `d.get(k)`. -/
def pyLookup {α : Type} : List (String × α) → String → Option α
  | [], _ => none
  | p :: rest, k => if p.1 = k then some p.2 else pyLookup rest k

/-- Python `d[k] = v`: replace the value of an existing key in place,
otherwise append the new binding. -/
def pyUpdate {α : Type} : List (String × α) → String → α → List (String × α)
  | [], k, v => [(k, v)]
  | p :: rest, k, v => if p.1 = k then (k, v) :: rest else p :: pyUpdate rest k v

/-- Option-valued map over a list, failing (like an uncaught `KeyError`) as
soon as one element fails. -/
def mapOpt {α β : Type} (f : α → Option β) : List α → Option (List β)
  | [] => some []
  | a :: l =>
    match f a, mapOpt f l with
    | some b, some bs => some (b :: bs)
    | _, _ => none

/-- Python `a or b()` where `a` is `None` or a string: an empty string is
falsy and falls through to `b`, any other string short-circuits. -/
def pyOr (a : Option String) (b : Unit → Option String) : Option String :=
  match a with
  | some s => if s = "" then b () else some s
  | none => b ()

/-! ### The input corpus

`doxdepends.py` reads one `index.xml` plus one XML file per entity.  Each
record is modelled by the fields the program actually reads
(`_ParseXMLFile` failures, including Python's falsy childless roots, are the
`none` case of the fetch functions). -/

/-- One `compound` element of `index.xml`: `refid` and `kind` attributes and
the `name` subelement text. -/
structure Compound where
  refid : String
  kind : String
  name : String
deriving DecidableEq

/-- One `compounddef/basecompoundref` element of a class file: its text (the
base-class name, possibly absent) and its `refid` attribute.  (Doxygen may
omit the `refid` attribute for external bases; such refs are not modelled —
the program would record a `None` target, which every later registry filter
drops just like an unregistered refid.) -/
structure BaseRef where
  text : Option String
  refid : String
deriving DecidableEq

/-- One `compounddef/sectiondef/memberdef` element: its `kind` attribute, the
`type/ref` refid if present (`_GetTypeRefID`), the `type/ref` refid of each
`param`, and the `refid` attribute of each `referencedby` element. -/
structure MemberDef where
  kind : String
  typeRef : Option String
  params : List (Option String)
  referencedBy : List String
deriving DecidableEq

/-- The parts of a class/struct/interface XML file that `_ProcessClassFile`
reads. -/
structure ClassRecord where
  baseRefs : List BaseRef
  inners : List String
  members : List MemberDef
deriving DecidableEq

/-- The parts of a group XML file that `_ProcessGroupFile` reads: the
`refid` attributes of its `compounddef/innerclass` elements. -/
structure GroupRecord where
  inners : List String
deriving DecidableEq

/-- The whole input directory: the root index (parsed `compound` list, `none`
when `index.xml` is missing or unparsable) and a fetch function per class and
group record (`none` models `_ParseXMLFile` returning `None`). -/
structure Corpus where
  index : Option (List Compound)
  classFile : String → Option ClassRecord
  groupFile : String → Option GroupRecord

/-! ### Grapher state -/

/-- The four dictionaries of the `Grapher` object.  `dep_dict` values are
Python sets of refids, modelled as duplicate-free lists whose enumeration
order is arbitrary from run to run (Python string hashing is randomized). -/
structure GState where
  ref_dict : List (String × String)
  dep_dict : List (String × List String)
  nested_dict : List (String × String)
  group_dict : List (String × String)
deriving DecidableEq

/-- State of a fresh `Grapher`. -/
def emptyGState : GState := ⟨[], [], [], []⟩

/-! ### Namespace filtering and display names -/

/-- Grapher._IncludeName: a name is included when no target namespace is
configured, or when it starts with the namespace followed by `::` or `.`. -/
def IncludeName (tns : Option String) (name : String) : Bool :=
  match tns with
  | none => true
  | some t => strStartsWith name (t ++ "::") || strStartsWith name (t ++ ".")

/-- Grapher._GetShortName: when a target namespace is configured and the full
name starts with `namespace::`, apply Python
`full_name.replace(namespace + '::', '')` (which removes every occurrence);
otherwise return the name unchanged. -/
def GetShortName (tns : Option String) (full_name : String) : String :=
  match tns with
  | some t =>
    if strStartsWith full_name (t ++ "::") then String.mk (removeAll (t ++ "::").data full_name.data)
    else full_name
  | none => full_name

/-! ### Dependency recording -/

/-- Grapher._AddDependency: record `from_refid → to_refid`, ignoring
self-dependencies; the target set is created on demand and deduplicated. -/
def AddDependency (st : GState) (from_refid to_refid : String) : GState :=
  if from_refid = to_refid then st
  else
    let s := (pyLookup st.dep_dict from_refid).getD []
    { st with dep_dict := pyUpdate st.dep_dict from_refid (if to_refid ∈ s then s else s ++ [to_refid]) }

/-- Grapher._ProcessClassFunction: add parameter-type dependencies (Python
tests `if refid:` here, so an empty refid string is also skipped), then for
every `referencedby` element derive the referencing class refid by stripping
the member suffix after the last underscore and record that it depends on
this class. -/
def ProcessClassFunction (st : GState) (class_refid : String) (func : MemberDef) : GState :=
  let st1 := func.params.foldl
    (fun s pr =>
      match pr with
      | some r => if r = "" then s else AddDependency s class_refid r
      | none => s) st
  func.referencedBy.foldl
    (fun s ref_by => AddDependency s (rsplitLast ref_by) class_refid) st1

/-- Grapher._ProcessClassMember: member variables of a known type add a
dependency; member functions add their return/type dependency and are then
scanned for parameters and referencers; other member kinds are ignored. -/
def ProcessClassMember (st : GState) (class_refid : String) (member : MemberDef) : GState :=
  if member.kind = "variable" then
    match member.typeRef with
    | some r => AddDependency st class_refid r
    | none => st
  else if member.kind = "function" then
    let st1 :=
      match member.typeRef with
      | some r => AddDependency st class_refid r
      | none => st
    ProcessClassFunction st1 class_refid member
  else st

/-- Grapher._ProcessClassFile: on fetch failure do nothing; otherwise add
base-class dependencies (gated by the namespace inclusion rule on the base
name), nested-class dependencies plus the nesting relation (ungated), and
member dependencies. -/
def ProcessClassFile (c : Corpus) (tns : Option String) (st : GState) (refid : String) : GState :=
  match c.classFile refid with
  | none => st
  | some cr =>
    let st1 := cr.baseRefs.foldl
      (fun s br =>
        match br.text with
        | some nm => if IncludeName tns nm then AddDependency s refid br.refid else s
        | none => s) st
    let st2 := cr.inners.foldl
      (fun s inner_refid =>
        let s1 := AddDependency s refid inner_refid
        { s1 with nested_dict := pyUpdate s1.nested_dict inner_refid refid }) st1
    cr.members.foldl (fun s m => ProcessClassMember s refid m) st2

/-- Grapher._ProcessGroupFile: on fetch failure do nothing; otherwise map
every inner class refid to this group refid. -/
def ProcessGroupFile (c : Corpus) (st : GState) (refid : String) : GState :=
  match c.groupFile refid with
  | none => st
  | some gr =>
    { st with group_dict := gr.inners.foldl (fun gd inner => pyUpdate gd inner refid) st.group_dict }

/-- One `compound` of the index, as handled by the loop body of
`_ProcessIndexFile`: classes, structs, interfaces and groups are registered;
groups get their group file processed; class-like entities get their class
file processed only when the namespace inclusion rule admits their name. -/
def ProcessCompound (c : Corpus) (tns : Option String) (st : GState) (cp : Compound) : GState :=
  if cp.kind ∈ ["class", "struct", "interface", "group"] then
    let st1 := { st with ref_dict := pyUpdate st.ref_dict cp.refid cp.name }
    if cp.kind = "group" then ProcessGroupFile c st1 cp.refid
    else if IncludeName tns cp.name then ProcessClassFile c tns st1 cp.refid
    else st1
  else st

/-- Grapher._ProcessIndexFile (the whole `ProcessXML` pass): when the root
index record cannot be located or parsed the method just returns, leaving the
state empty; otherwise every compound is processed in order. -/
def ProcessIndexFile (c : Corpus) (tns : Option String) : GState :=
  match c.index with
  | none => emptyGState
  | some compounds => compounds.foldl (ProcessCompound c tns) emptyGState

/-! ### Group propagation -/

/-- Nested function `_GetGroup` inside `_FindNestedClassGroups`: the group of
the given refid, or recursively of its enclosing class.  The Python recursion
has no bound; the fuel argument only models its termination on the acyclic
nesting relations the source format guarantees (fuel exhaustion yields
`none`, a case the program never reaches on such inputs). -/
def GetGroup (g nd : List (String × String)) : Nat → Option String → Option String
  | _, none => none
  | 0, some _ => none
  | fuel+1, some refid => pyOr (pyLookup g refid) (fun _ => GetGroup g nd fuel (pyLookup nd refid))

/-- One iteration of the `_FindNestedClassGroups` loop body for the entry
`(inner_refid, outer_refid)`. -/
def propStep (fuel : Nat) (nd : List (String × String)) (g : List (String × String))
    (p : String × String) : List (String × String) :=
  match GetGroup g nd fuel (some p.2) with
  | none => g
  | some group_refid => pyUpdate g p.1 group_refid

/-- The `_FindNestedClassGroups` loop over the remaining `nested_dict` items,
threading the mutable `group_dict`. -/
def propagateFrom (fuel : Nat) (nd : List (String × String)) :
    List (String × String) → List (String × String) → List (String × String)
  | g, [] => g
  | g, p :: rest => propagateFrom fuel nd (propStep fuel nd g p) rest

/-- Grapher._FindNestedClassGroups: for every nesting entry resolve the
enclosing class's group through the (mutating) `group_dict` and assign it to
the nested class. -/
def FindNestedClassGroups (fuel : Nat) (st : GState) : GState :=
  { st with group_dict := propagateFrom fuel st.nested_dict st.group_dict st.nested_dict }

/-! ### Graph assembly -/

/-- Grapher._GetSubgraphDict: reverse `group_dict` into group refid ↦ list of
member refids (in insertion order). -/
def GetSubgraphDict (group_dict : List (String × String)) : List (String × List String) :=
  group_dict.foldl (fun sub p => pyUpdate sub p.2 ((pyLookup sub p.2).getD [] ++ [p.1])) []

namespace Writer

/-- Writer.Class: label and Doxygen `\ref` target of one node. -/
structure Class where
  label : String
  url_ref : String
deriving DecidableEq

/-- Writer.Group: cluster label and member nodes. -/
structure Group where
  label : String
  member_classes : List Class
deriving DecidableEq

/-- Writer.Dependencies: edge-statement source label and target labels. -/
structure Dependencies where
  label : String
  dependency_labels : List String
deriving DecidableEq

end Writer

/-- Grapher._CollectGroups: for every group refid in sorted order, look up its
name (`ref_dict[group]`, a possible `KeyError`, hence `Option`), then for
every member refid in sorted order look up its name (again a possible
`KeyError`) and keep the members passing the namespace inclusion rule. -/
def CollectGroups (tns : Option String) (ref_dict : List (String × String))
    (sub : List (String × List String)) : Option (List Writer.Group) :=
  mapOpt
    (fun group =>
      match pyLookup ref_dict group with
      | none => none
      | some group_name =>
        (mapOpt (fun member => pyLookup ref_dict member)
            (sortStr ((pyLookup sub group).getD []))).map
          (fun names =>
            ⟨group_name,
             (names.filter (fun nm => IncludeName tns nm)).map
               (fun nm => ⟨GetShortName tns nm, nm⟩)⟩))
    (sortStr (sub.map Prod.fst))

/-- Grapher._CollectUngroupedClasses: every registered refid in sorted order
that is not a key of the subgraph dictionary and whose name passes the
namespace inclusion rule. -/
def CollectUngroupedClasses (tns : Option String) (ref_dict : List (String × String))
    (sub : List (String × List String)) : List Writer.Class :=
  (sortStr (ref_dict.map Prod.fst)).filterMap
    (fun refid =>
      if (pyLookup sub refid).isSome then none
      else
        match pyLookup ref_dict refid with
        | some name => if IncludeName tns name then some ⟨GetShortName tns name, name⟩ else none
        | none => none)

/-- Grapher._CollectDependencies: for every dependency source refid in sorted
order, look up its name (`ref_dict[refid]` without a membership guard, hence
`Option`), keep the targets that are registered, and sort their short
names. -/
def CollectDependencies (tns : Option String) (ref_dict : List (String × String))
    (dep_dict : List (String × List String)) : Option (List Writer.Dependencies) :=
  mapOpt
    (fun refid =>
      (pyLookup ref_dict refid).map
        (fun nm =>
          ⟨GetShortName tns nm,
           sortStr (((pyLookup dep_dict refid).getD []).filterMap
             (fun dep => (pyLookup ref_dict dep).map (GetShortName tns)))⟩))
    (sortStr (dep_dict.map Prod.fst))

/-! ### Rendering -/

/-- Writer._WriteGraphHeader lines. -/
def GraphHeader : List String :=
  ["digraph dependencies \x7b",
   " rankdir=\"LR\";",
   " concentrate=true;",
   " node [shape=record, fontname=Verdana, fontsize=10, margin=.1, width=.2, height=.2];"]

/-- Writer._WriteClass: one node declaration. -/
def WriteClass (extra_indent : String) (c : Writer.Class) : String :=
  extra_indent ++ " \"" ++ c.label ++ "\" [URL=\"\\ref " ++ c.url_ref ++ "\", fontcolor=blue];"

/-- Writer._WriteGroup: one cluster block. -/
def WriteGroup (g : Writer.Group) (index : Nat) : List String :=
  ([" subgraph cluster_" ++ Nat.repr index ++ " \x7b",
    "   label     = \"" ++ g.label ++ "\";",
    "   labeljust = r;",
    "   color     = darkorange;",
    "   fontcolor = darkorange;",
    "   fontsize  = 12;",
    "   fontname  = \"Verdana\";",
    "   penwidth  = 2;"]
   ++ g.member_classes.map (WriteClass "  ")) ++ [" \x7d"]

/-- Writer._WriteDependencies: one edge statement fanning out to all targets. -/
def WriteDependencies (d : Writer.Dependencies) : String :=
  " \"" ++ d.label ++ "\" -> \x7b " ++
    joinSep " " (d.dependency_labels.map (fun dl => "\"" ++ dl ++ "\"")) ++ " \x7d;"

/-- Writer.Write: the lines of the output artifact, in emission order. -/
def Write (groups : List Writer.Group) (ungrouped_classes : List Writer.Class)
    (dependencies : List Writer.Dependencies) : List String :=
  GraphHeader
  ++ (groups.enum.map (fun p => WriteGroup p.2 p.1)).flatten
  ++ ungrouped_classes.map (WriteClass "")
  ++ dependencies.map WriteDependencies
  ++ ["\x7d"]

/-- Grapher.OutputDotGraph: propagate nested-class groups, assemble the view,
and render it.  `none` models the run dying on an uncaught `KeyError` during
assembly (which happens before anything is written). -/
def OutputDotGraph (tns : Option String) (fuel : Nat) (st : GState) : Option (List String) :=
  let st1 := FindNestedClassGroups fuel st
  let sub := GetSubgraphDict st1.group_dict
  match CollectGroups tns st1.ref_dict sub, CollectDependencies tns st1.ref_dict st1.dep_dict with
  | some groups, some dependencies =>
    some (Write groups (CollectUngroupedClasses tns st1.ref_dict sub) dependencies)
  | _, _ => none

/-! ### Cycle reporting -/

/-- Whether `dep_dict` records an edge from `a` to `b`. -/
def edgeRecorded (dep_dict : List (String × List String)) (a b : String) : Bool :=
  match pyLookup dep_dict a with
  | some targets => decide (b ∈ targets)
  | none => false

/-- Inner loop of `Grapher.ReportCycles` for one source `key` and its target
set: emit the pair for every target that has a recorded edge back to `key`.
Printing the message indexes `ref_dict` with both refids, so a missing
registration raises (`none`); the pairs printed before such a crash are not
modelled. -/
def CycleRow (st : GState) (key : String) : List String → Option (List (String × String))
  | [] => some []
  | dep :: rest =>
    match pyLookup st.dep_dict dep with
    | none => CycleRow st key rest
    | some targets =>
      if key ∈ targets then
        match pyLookup st.ref_dict key, pyLookup st.ref_dict dep with
        | some _, some _ => (CycleRow st key rest).map (fun l => (key, dep) :: l)
        | _, _ => none
      else CycleRow st key rest

/-- Grapher.ReportCycles over the given `dep_dict` rows: the ordered refid
pairs for which a cycle message is printed. -/
def ReportCycles (st : GState) : List (String × List String) → Option (List (String × String))
  | [] => some []
  | (key, targets) :: rest =>
    match CycleRow st key targets with
    | none => none
    | some l1 => (ReportCycles st rest).map (fun l2 => l1 ++ l2)

/-! ### Auxiliary notions used by the theorems -/

/-- Bounded termination of the upward walk through the nesting relation:
starting from the given refid, following `nested_dict` reaches a refid with
no entry within the given number of steps.  This holds of every acyclic
nesting relation for any bound past its depth. -/
def chainTerm (nd : List (String × String)) : Nat → Option String → Bool
  | _, none => true
  | 0, some _ => false
  | fuel+1, some r => chainTerm nd fuel (pyLookup nd r)

/-- Modelled from the claim's words (claim C5): the outermost enclosing
container of an entity — the last refid reachable by walking the nesting
relation upward. -/
def specOutermostContainer (nd : List (String × String)) : Nat → String → String
  | 0, r => r
  | fuel+1, r =>
    match pyLookup nd r with
    | none => r
    | some parent => specOutermostContainer nd fuel parent

/-- Invariant maintained by the `_FindNestedClassGroups` loop relative to the
initial group map `g0`: every refid's current binding is either its initial
binding or the group resolved for it against the initial map.  (This holds
throughout the loop when no nesting key is initially grouped.) -/
def mapAgrees (g0 g nd : List (String × String)) (F : Nat) : Prop :=
  ∀ r : String, pyLookup g r = pyLookup g0 r ∨ pyLookup g r = GetGroup g0 nd F (some r)

/-- Relation between two dependency target sets as enumerated by two runs:
both absent, or permutations of each other (Python set iteration order is
arbitrary across runs). -/
def optPerm : Option (List String) → Option (List String) → Prop
  | some a, some b => a.Perm b
  | none, none => True
  | _, _ => False

instance : (a b : Option (List String)) → Decidable (optPerm a b)
  | some a, some b => List.decidablePerm a b
  | none, none => isTrue trivial
  | some _, none => isFalse (fun h => h)
  | none, some _ => isFalse (fun h => h)

/-- Replay a sequence of `_AddDependency` calls. -/
def depFold : List (String × String) → GState → GState
  | [], st => st
  | p :: rest, st => depFold rest (AddDependency st p.1 p.2)

/-! ### Concrete corpora and states used in the theorems below -/

/-- Corpus whose root index record cannot be located or parsed. -/
def noIndexCorpus : Corpus := ⟨none, fun _ => none, fun _ => none⟩

/-- Corpus with an included class `Proj::Widget` (refid `w`) holding a member
variable of the namespace-excluded but index-registered class `Other::Gadget`
(refid `g`). -/
def corpusC2 : Corpus :=
  ⟨some [⟨"w", "class", "Proj::Widget"⟩, ⟨"g", "class", "Other::Gadget"⟩],
   fun r => if r = "w" then some ⟨[], [], [⟨"variable", some "g", [], []⟩]⟩ else none,
   fun _ => none⟩

/-- Corpus with a group `GroupG` (refid `g1`) whose only member is the class
`Inner` (refid `k2`). -/
def corpusC3 : Corpus :=
  ⟨some [⟨"g1", "group", "GroupG"⟩, ⟨"k2", "class", "Inner"⟩],
   fun r => if r = "k2" then some ⟨[], [], []⟩ else none,
   fun r => if r = "g1" then some ⟨["k2"]⟩ else none⟩

/-- Corpus with one registered class `A` (refid `classA`) whose member
function is referenced by a function of the unregistered entity `ghost`
(member refid `ghost_1a2b`). -/
def corpusC10 : Corpus :=
  ⟨some [⟨"classA", "class", "A"⟩],
   fun r => if r = "classA" then some ⟨[], [], [⟨"function", none, [], ["ghost_1a2b"]⟩]⟩ else none,
   fun _ => none⟩

/-- Nesting relation `A` inside `B` inside `C`, scanned in that order. -/
def ndEx : List (String × String) := [("A", "B"), ("B", "C")]

/-- State with the nesting relation `A ⊂ B ⊂ C` where only the top container
`C` is directly grouped (no nesting key carries a direct group membership). -/
def stPropW : GState := ⟨[], [], [("A", "B"), ("B", "C")], [("C", "G2")]⟩

/-- Initial group map: `B` directly in group `G1`, `C` directly in `G2`. -/
def g0Ex : List (String × String) := [("B", "G1"), ("C", "G2")]

/-- State with a direct two-entity cycle `a ↔ b` and a three-entity cycle
`b → c → d → b` (all entities registered). -/
def stC8 : GState :=
  ⟨[("a", "NodeA"), ("b", "NodeB"), ("c", "NodeC"), ("d", "NodeD")],
   [("a", ["b"]), ("b", ["a", "c"]), ("c", ["d"]), ("d", ["b"])], [], []⟩

/-- States identical except for the enumeration order of one dependency
target set (first run). -/
def st6a : GState := ⟨[("a", "A"), ("b", "B")], [("a", ["b", "x"])], [], []⟩

/-- States identical except for the enumeration order of one dependency
target set (second run). -/
def st6b : GState := ⟨[("a", "A"), ("b", "B")], [("a", ["x", "b"])], [], []⟩

end Dox

namespace Dox

/-! ## Helper lemmas -/

/-- Comparison of char lists is total. -/
theorem charListLe_total : ∀ as bs : List Char, charListLe as bs = true ∨ charListLe bs as = true := by
  intro as
  induction as with
  | nil => intro bs; left; rfl
  | cons x xs ih =>
    intro bs
    cases bs with
    | nil => right; rfl
    | cons y ys =>
      rcases lt_trichotomy x y with hxy | hxy | hxy
      · left; simp [charListLe, hxy]
      · subst hxy
        rcases ih ys with h | h
        · left; simp [charListLe, lt_irrefl, h]
        · right; simp [charListLe, lt_irrefl, h]
      · right; simp [charListLe, hxy]

/-- Comparison of char lists is transitive. -/
theorem charListLe_trans : ∀ as bs cs : List Char,
    charListLe as bs = true → charListLe bs cs = true → charListLe as cs = true := by
  intro as
  induction as with
  | nil => intro bs cs _ _; rfl
  | cons x xs ih =>
    intro bs cs hab hbc
    cases bs with
    | nil => simp [charListLe] at hab
    | cons y ys =>
      cases cs with
      | nil => simp [charListLe] at hbc
      | cons z zs =>
        rcases lt_trichotomy x y with hxy | hxy | hxy
        · rcases lt_trichotomy y z with hyz | hyz | hyz
          · have hxz : x < z := lt_trans hxy hyz
            simp [charListLe, hxz]
          · subst hyz; simp [charListLe, hxy]
          · simp [charListLe, hyz, asymm hyz] at hbc
        · subst hxy
          rcases lt_trichotomy x z with hyz | hyz | hyz
          · simp [charListLe, hyz]
          · subst hyz
            simp only [charListLe, lt_irrefl, if_false] at hab hbc ⊢
            exact ih ys zs hab hbc
          · simp [charListLe, hyz, asymm hyz] at hbc
        · simp [charListLe, hxy, asymm hxy] at hab

/-- Comparison of char lists is antisymmetric. -/
theorem charListLe_antisymm : ∀ as bs : List Char,
    charListLe as bs = true → charListLe bs as = true → as = bs := by
  intro as
  induction as with
  | nil => intro bs _ hba; cases bs with
    | nil => rfl
    | cons y ys => simp [charListLe] at hba
  | cons x xs ih =>
    intro bs hab hba
    cases bs with
    | nil => simp [charListLe] at hab
    | cons y ys =>
      rcases lt_trichotomy x y with hxy | hxy | hxy
      · simp [charListLe, hxy, asymm hxy] at hba
      · subst hxy
        simp only [charListLe, lt_irrefl, if_false] at hab hba
        exact congrArg (x :: ·) (ih ys hab hba)
      · simp [charListLe, hxy, asymm hxy] at hab

/-- Sorting is invariant under permutation of the input: Python `sorted`
yields the unique ascending reordering. -/
theorem sortStr_eq_of_perm {l₁ l₂ : List String} (h : l₁.Perm l₂) : sortStr l₁ = sortStr l₂ := by
  haveI ha : IsAntisymm String (fun a b => strLe a b = true) :=
    ⟨fun a b hab hba => by
      apply String.ext
      exact charListLe_antisymm a.data b.data hab hba⟩
  haveI ht : IsTotal String (fun a b => strLe a b = true) :=
    ⟨fun a b => charListLe_total a.data b.data⟩
  haveI htr : IsTrans String (fun a b => strLe a b = true) :=
    ⟨fun a b c => charListLe_trans a.data b.data c.data⟩
  exact List.eq_of_perm_of_sorted
    ((List.perm_insertionSort _ l₁).trans (h.trans (List.perm_insertionSort _ l₂).symm))
    (List.sorted_insertionSort _ l₁) (List.sorted_insertionSort _ l₂)

/-- Membership in a sorted list is membership in the original list. -/
theorem mem_sortStr {a : String} {l : List String} : a ∈ sortStr l ↔ a ∈ l :=
  (List.perm_insertionSort _ l).mem_iff

/-- Lookup after an update. -/
theorem pyLookup_pyUpdate {α : Type} (l : List (String × α)) (k : String) (v : α) (q : String) :
    pyLookup (pyUpdate l k v) q = if k = q then some v else pyLookup l q := by
  induction l with
  | nil =>
    by_cases h : k = q
    · simp [pyUpdate, pyLookup, h]
    · simp [pyUpdate, pyLookup, h]
  | cons p rest ih =>
    obtain ⟨p1, p2⟩ := p
    by_cases hp : p1 = k
    · subst hp
      by_cases h : p1 = q
      · simp [pyUpdate, pyLookup, h]
      · simp [pyUpdate, pyLookup, h]
    · by_cases h1 : p1 = q
      · subst h1
        have hk : ¬ k = p1 := fun hkq => hp hkq.symm
        simp [pyUpdate, pyLookup, hp, hk]
      · simp [pyUpdate, pyLookup, hp, h1, ih]

/-- Updating a key with the value it already has is the identity. -/
theorem pyUpdate_of_lookup_eq {α : Type} {l : List (String × α)} {k : String} {v : α}
    (h : pyLookup l k = some v) : pyUpdate l k v = l := by
  induction l with
  | nil => simp [pyLookup] at h
  | cons p rest ih =>
    obtain ⟨p1, p2⟩ := p
    by_cases hp : p1 = k
    · subst hp
      simp only [pyLookup, if_true] at h
      simp only [Option.some.injEq] at h
      simp [pyUpdate, h]
    · simp only [pyLookup, hp, if_false] at h
      simp [pyUpdate, hp, ih h]

/-- In a duplicate-free association list, membership determines lookup. -/
theorem pyLookup_of_mem_nodup {α : Type} {l : List (String × α)} {k : String} {v : α}
    (hnd : (l.map Prod.fst).Nodup) (hm : (k, v) ∈ l) : pyLookup l k = some v := by
  induction l with
  | nil => cases hm
  | cons p rest ih =>
    simp only [List.map_cons, List.nodup_cons] at hnd
    rcases List.mem_cons.mp hm with h | h
    · subst h; simp [pyLookup]
    · have hk : p.1 ≠ k := by
        intro he
        exact hnd.1 (he ▸ List.mem_map.mpr ⟨(k, v), h, rfl⟩)
      simp [pyLookup, hk, ih hnd.2 h]

/-- Pointwise-equal functions give equal `mapOpt`. -/
theorem mapOpt_congr {α β : Type} {f g : α → Option β} {l : List α}
    (h : ∀ a ∈ l, f a = g a) : mapOpt f l = mapOpt g l := by
  induction l with
  | nil => rfl
  | cons a rest ih =>
    simp only [mapOpt, h a (List.mem_cons_self a rest),
      ih (fun x hx => h x (List.mem_cons_of_mem a hx))]

/-- Every element of a successful `mapOpt` comes from some input element. -/
theorem mapOpt_mem {α β : Type} {f : α → Option β} {l : List α} {out : List β}
    (h : mapOpt f l = some out) : ∀ b ∈ out, ∃ a ∈ l, f a = some b := by
  induction l generalizing out with
  | nil =>
    simp only [mapOpt, Option.some.injEq] at h
    subst h; intro b hb; cases hb
  | cons a rest ih =>
    intro b hb
    simp only [mapOpt] at h
    cases hfa : f a with
    | none => rw [hfa] at h; cases h
    | some b0 =>
      rw [hfa] at h
      cases hrest : mapOpt f rest with
      | none => rw [hrest] at h; cases h
      | some bs =>
        rw [hrest] at h
        simp only [Option.some.injEq] at h
        subst h
        rcases List.mem_cons.mp hb with rfl | hb
        · exact ⟨a, List.mem_cons_self a rest, hfa⟩
        · rcases ih hrest b hb with ⟨x, hx, hfx⟩
          exact ⟨x, List.mem_cons_of_mem a hx, hfx⟩

/-- Resolving no refid yields no group, at any fuel. -/
theorem getGroup_none (g nd : List (String × String)) (F : Nat) :
    GetGroup g nd F none = none := by
  cases F <;> rfl

/-- Group resolution never returns the empty string (the only falsy string),
because `pyOr` only short-circuits on truthy strings. -/
theorem getGroup_ne_empty (g nd : List (String × String)) :
    ∀ (F : Nat) (o : Option String), GetGroup g nd F o ≠ some "" := by
  intro F
  induction F with
  | zero => intro o; cases o <;> simp [GetGroup]
  | succ F ih =>
    intro o
    cases o with
    | none => simp [GetGroup]
    | some r =>
      simp only [GetGroup]
      cases hg : pyLookup g r with
      | none => simpa [pyOr] using ih (pyLookup nd r)
      | some s =>
        by_cases hs : s = ""
        · simpa [pyOr, hg, hs] using ih (pyLookup nd r)
        · simp [pyOr, hg, hs]

/-- Group resolution does not depend on the fuel, as long as the fuel bounds
the length of the walk (`chainTerm`). -/
theorem getGroup_fuel_stable {g nd : List (String × String)} :
    ∀ (f : Nat) (o : Option String), chainTerm nd f o = true →
      ∀ {F F2 : Nat}, f ≤ F → f ≤ F2 → GetGroup g nd F o = GetGroup g nd F2 o := by
  intro f
  induction f with
  | zero =>
    intro o hc F F2 _ _
    cases o with
    | none => rw [getGroup_none, getGroup_none]
    | some r => simp [chainTerm] at hc
  | succ f ih =>
    intro o hc F F2 hF hF2
    cases o with
    | none => rw [getGroup_none, getGroup_none]
    | some r =>
      obtain ⟨F1, rfl⟩ : ∃ F1, F = F1 + 1 := ⟨F - 1, by omega⟩
      obtain ⟨F3, rfl⟩ : ∃ F3, F2 = F3 + 1 := ⟨F2 - 1, by omega⟩
      simp only [chainTerm] at hc
      simp only [GetGroup]
      cases hg : pyLookup g r with
      | none => simpa [pyOr] using ih (pyLookup nd r) hc (by omega) (by omega)
      | some s =>
        by_cases hs : s = ""
        · simpa [pyOr, hs] using ih (pyLookup nd r) hc (by omega) (by omega)
        · simp [pyOr, hs]

/-- While the loop invariant holds, resolving a group through the current
(partially updated) map agrees with resolving it through the initial map. -/
theorem getGroup_invariant {g0 g nd : List (String × String)} {F : Nat}
    (hinv : mapAgrees g0 g nd F) :
    ∀ (f : Nat) (r : String), chainTerm nd f (some r) = true → f ≤ F →
      GetGroup g nd F (some r) = GetGroup g0 nd F (some r) := by
  intro f
  induction f with
  | zero => intro r hc _; simp [chainTerm] at hc
  | succ f ih =>
    intro r hc hF
    obtain ⟨F1, rfl⟩ : ∃ F1, F = F1 + 1 := ⟨F - 1, by omega⟩
    simp only [chainTerm] at hc
    have tailEq : GetGroup g nd F1 (pyLookup nd r) = GetGroup g0 nd F1 (pyLookup nd r) := by
      cases hpar : pyLookup nd r with
      | none => rw [getGroup_none, getGroup_none]
      | some r2 =>
        rw [hpar] at hc
        calc GetGroup g nd F1 (some r2)
            = GetGroup g nd (F1 + 1) (some r2) :=
              getGroup_fuel_stable f (some r2) hc (by omega) (by omega)
          _ = GetGroup g0 nd (F1 + 1) (some r2) := ih r2 hc (by omega)
          _ = GetGroup g0 nd F1 (some r2) :=
              getGroup_fuel_stable f (some r2) hc (by omega) (by omega)
    have hL : GetGroup g nd (F1 + 1) (some r)
        = pyOr (pyLookup g r) (fun _ => GetGroup g nd F1 (pyLookup nd r)) := rfl
    have hR : GetGroup g0 nd (F1 + 1) (some r)
        = pyOr (pyLookup g0 r) (fun _ => GetGroup g0 nd F1 (pyLookup nd r)) := rfl
    rcases hinv r with hl | hr
    · rw [hL, hR, hl]
      cases hg0 : pyLookup g0 r with
      | none => simpa [pyOr] using tailEq
      | some s =>
        by_cases hs : s = ""
        · simpa [pyOr, hs] using tailEq
        · simp [pyOr, hs]
    · cases hv : GetGroup g0 nd (F1 + 1) (some r) with
      | some s =>
        have hs : s ≠ "" := fun he => getGroup_ne_empty g0 nd (F1 + 1) (some r) (he ▸ hv)
        rw [hL, hr, hv]
        simp [pyOr, hs]
      | none =>
        have hg : pyLookup g r = none := hr.trans hv
        have htail0 : GetGroup g0 nd F1 (pyLookup nd r) = none := by
          rw [hR] at hv
          cases hg0 : pyLookup g0 r with
          | none => simpa [pyOr, hg0] using hv
          | some s =>
            rw [hg0] at hv
            by_cases hs : s = ""
            · simpa [pyOr, hs] using hv
            · simp [pyOr, hs] at hv
        rw [hL, hg]
        simpa [pyOr] using tailEq.trans htail0

/-- When a nesting key is not initially grouped, its static resolution equals
the static resolution of its enclosing class. -/
theorem getGroup_key_eq_parent {g0 nd : List (String × String)} {L F : Nat}
    (hnd : (nd.map Prod.fst).Nodup)
    (h2 : ∀ p ∈ nd, pyLookup g0 p.1 = none)
    (h3 : ∀ p ∈ nd, chainTerm nd L (some p.2) = true)
    (hF : L + 1 ≤ F) {p : String × String} (hp : p ∈ nd) :
    GetGroup g0 nd F (some p.1) = GetGroup g0 nd F (some p.2) := by
  obtain ⟨i, o⟩ := p
  obtain ⟨F1, rfl⟩ : ∃ F1, F = F1 + 1 := ⟨F - 1, by omega⟩
  have hL : GetGroup g0 nd (F1 + 1) (some i)
      = pyOr (pyLookup g0 i) (fun _ => GetGroup g0 nd F1 (pyLookup nd i)) := rfl
  rw [hL, h2 (i, o) hp]
  simp only [pyOr]
  rw [pyLookup_of_mem_nodup hnd hp]
  exact getGroup_fuel_stable L (some o) (h3 (i, o) hp) (by omega) (by omega)

/-- One loop iteration preserves the invariant. -/
theorem mapAgrees_propStep {g0 g nd : List (String × String)} {L F : Nat}
    (hnd : (nd.map Prod.fst).Nodup)
    (h2 : ∀ p ∈ nd, pyLookup g0 p.1 = none)
    (h3 : ∀ p ∈ nd, chainTerm nd L (some p.2) = true)
    (hF : L + 1 ≤ F)
    (hinv : mapAgrees g0 g nd F) {p : String × String} (hp : p ∈ nd) :
    mapAgrees g0 (propStep F nd g p) nd F := by
  unfold propStep
  cases hv : GetGroup g nd F (some p.2) with
  | none => exact hinv
  | some v =>
    intro r
    rw [pyLookup_pyUpdate]
    by_cases hr : p.1 = r
    · subst hr
      right
      rw [if_pos rfl]
      rw [getGroup_key_eq_parent hnd h2 h3 hF hp]
      rw [← getGroup_invariant hinv L p.2 (h3 p hp) (by omega), hv]
    · rw [if_neg hr]
      exact hinv r

/-- The loop never touches the binding of a refid that is not among the keys
of the remaining items. -/
theorem propagateFrom_lookup_not_mem {F : Nat} {nd : List (String × String)} :
    ∀ (rest : List (String × String)) (g : List (String × String)) (k : String),
      k ∉ rest.map Prod.fst →
      pyLookup (propagateFrom F nd g rest) k = pyLookup g k := by
  intro rest
  induction rest with
  | nil => intro g k _; rfl
  | cons p rest ih =>
    intro g k hk
    simp only [List.map_cons, List.mem_cons, not_or] at hk
    simp only [propagateFrom]
    rw [ih _ _ hk.2]
    unfold propStep
    cases GetGroup g nd F (some p.2) with
    | none => rfl
    | some v =>
      rw [pyLookup_pyUpdate]
      exact if_neg (fun h => hk.1 h.symm)

/-- Main characterization of one propagation pass: when no nesting key is
grouped beforehand, every nested refid ends bound to the group statically
resolved (in the pre-pass map) for its enclosing class. -/
theorem propagateFrom_char {g0 nd : List (String × String)} {L F : Nat}
    (hnd : (nd.map Prod.fst).Nodup)
    (h2 : ∀ p ∈ nd, pyLookup g0 p.1 = none)
    (h3 : ∀ p ∈ nd, chainTerm nd L (some p.2) = true)
    (hF : L + 1 ≤ F) :
    ∀ (rest : List (String × String)) (g : List (String × String)),
      mapAgrees g0 g nd F →
      (∀ p ∈ rest, p ∈ nd) →
      (rest.map Prod.fst).Nodup →
      (∀ p ∈ rest, pyLookup g p.1 = none) →
      ∀ q ∈ rest, pyLookup (propagateFrom F nd g rest) q.1 = GetGroup g0 nd F (some q.2) := by
  intro rest
  induction rest with
  | nil => intro g _ _ _ _ q hq; cases hq
  | cons p rest ih =>
    intro g hinv hsub hnodup hnone q hq
    have hpnd : p ∈ nd := hsub p (List.mem_cons_self p rest)
    have hval : GetGroup g nd F (some p.2) = GetGroup g0 nd F (some p.2) :=
      getGroup_invariant hinv L p.2 (h3 p hpnd) (by omega)
    have hinv2 : mapAgrees g0 (propStep F nd g p) nd F :=
      mapAgrees_propStep hnd h2 h3 hF hinv hpnd
    simp only [List.map_cons, List.nodup_cons] at hnodup
    simp only [propagateFrom]
    rcases List.mem_cons.mp hq with rfl | hq2
    · rw [propagateFrom_lookup_not_mem rest _ _ hnodup.1]
      unfold propStep
      cases hv : GetGroup g nd F (some q.2) with
      | none => rw [hnone q (List.mem_cons_self q rest), ← hval, hv]
      | some v => rw [pyLookup_pyUpdate, if_pos rfl, ← hval, hv]
    · apply ih (propStep F nd g p) hinv2 (fun x hx => hsub x (List.mem_cons_of_mem p hx))
        hnodup.2 ?_ q hq2
      intro x hx
      unfold propStep
      cases GetGroup g nd F (some p.2) with
      | none => exact hnone x (List.mem_cons_of_mem p hx)
      | some v =>
        have hne : ¬ p.1 = x.1 :=
          fun he => hnodup.1 (by rw [he]; exact List.mem_map.mpr ⟨x, hx, rfl⟩)
        rw [pyLookup_pyUpdate, if_neg hne]
        exact hnone x (List.mem_cons_of_mem p hx)

/-- The invariant holds of the map produced by a full pass. -/
theorem mapAgrees_final {g0 nd : List (String × String)} {L F : Nat}
    (hnd : (nd.map Prod.fst).Nodup)
    (h2 : ∀ p ∈ nd, pyLookup g0 p.1 = none)
    (h3 : ∀ p ∈ nd, chainTerm nd L (some p.2) = true)
    (hF : L + 1 ≤ F) :
    mapAgrees g0 (propagateFrom F nd g0 nd) nd F := by
  intro r
  by_cases hr : r ∈ nd.map Prod.fst
  · rcases List.mem_map.mp hr with ⟨p, hp, hp1⟩
    subst hp1
    right
    rw [propagateFrom_char hnd h2 h3 hF nd g0 (fun r2 => Or.inl rfl) (fun x hx => hx) hnd h2 p hp]
    exact (getGroup_key_eq_parent hnd h2 h3 hF hp).symm
  · left
    exact propagateFrom_lookup_not_mem nd g0 r hr

/-- A pass over a map that already binds every nesting key to its resolved
group changes nothing. -/
theorem propagateFrom_noop {g0 g1 nd : List (String × String)} {L F : Nat}
    (h3 : ∀ p ∈ nd, chainTerm nd L (some p.2) = true)
    (hF : L + 1 ≤ F)
    (hinv : mapAgrees g0 g1 nd F)
    (hchar : ∀ p ∈ nd, pyLookup g1 p.1 = GetGroup g0 nd F (some p.2)) :
    ∀ (rest : List (String × String)), (∀ p ∈ rest, p ∈ nd) →
      propagateFrom F nd g1 rest = g1 := by
  intro rest
  induction rest with
  | nil => intro _; rfl
  | cons p rest ih =>
    intro hsub
    have hpnd : p ∈ nd := hsub p (List.mem_cons_self p rest)
    have hstep : propStep F nd g1 p = g1 := by
      unfold propStep
      rw [getGroup_invariant hinv L p.2 (h3 p hpnd) (by omega)]
      cases hv : GetGroup g0 nd F (some p.2) with
      | none => rfl
      | some v => exact pyUpdate_of_lookup_eq (by rw [hchar p hpnd, hv])
    simp only [propagateFrom, hstep]
    exact ih (fun x hx => hsub x (List.mem_cons_of_mem p hx))

/-- Idempotence of the propagation pass under the no-pre-grouped-nested-key
condition. -/
theorem propagateFrom_idem {g0 nd : List (String × String)} {L F : Nat}
    (hnd : (nd.map Prod.fst).Nodup)
    (h2 : ∀ p ∈ nd, pyLookup g0 p.1 = none)
    (h3 : ∀ p ∈ nd, chainTerm nd L (some p.2) = true)
    (hF : L + 1 ≤ F) :
    propagateFrom F nd (propagateFrom F nd g0 nd) nd = propagateFrom F nd g0 nd :=
  propagateFrom_noop h3 hF (mapAgrees_final hnd h2 h3 hF)
    (propagateFrom_char hnd h2 h3 hF nd g0 (fun _ => Or.inl rfl) (fun _ hx => hx) hnd h2)
    nd (fun _ hx => hx)

/-! ## Claim C5 -/

/-- C5 (counterexample): the claim says an indirectly-nested entity's group
membership equals the group of its *outermost* enclosing container.  In the
concrete nesting `A ⊂ B ⊂ C` with `B` directly in group `G1` and `C` directly
in group `G2`, `A`'s outermost enclosing container is `C`, associated with
`G2`, but propagation assigns `A` the group `G1` of its nearest grouped
container `B`. -/
theorem C5_counterexample :
    specOutermostContainer ndEx 3 "A" = "C" ∧
    pyLookup g0Ex "C" = some "G2" ∧
    pyLookup (FindNestedClassGroups 3 ⟨[], [], ndEx, g0Ex⟩).group_dict "A" = some "G1" ∧
    some "G1" ≠ (some "G2" : Option String) := by decide

/-- C5 (amended): after propagation, provided no nesting key carries a direct
group membership beforehand (and the nesting relation is finite-keyed and its
upward walks terminate within the fuel), every nested entity's group
membership equals the group resolved by walking upward from its immediate
enclosing container and taking the first container with a direct group
association in the pre-propagation map — the nearest grouped ancestor, not
the outermost one. -/
theorem C5_nearest_enclosing_group (st : GState) (L F : Nat)
    (hnd : (st.nested_dict.map Prod.fst).Nodup)
    (h2 : ∀ p ∈ st.nested_dict, pyLookup st.group_dict p.1 = none)
    (h3 : ∀ p ∈ st.nested_dict, chainTerm st.nested_dict L (some p.2) = true)
    (hF : L + 1 ≤ F) :
    ∀ p ∈ st.nested_dict,
      pyLookup (FindNestedClassGroups F st).group_dict p.1 =
        GetGroup st.group_dict st.nested_dict F (some p.2) := by
  intro p hp
  exact propagateFrom_char hnd h2 h3 hF st.nested_dict st.group_dict
    (fun _ => Or.inl rfl) (fun _ hx => hx) hnd h2 p hp

/-- C5 (witness): the amended theorem applied to the concrete state
`A ⊂ B ⊂ C` with only `C` grouped. -/
theorem C5_witness :
    ((stPropW.nested_dict.map Prod.fst).Nodup ∧
     (∀ p ∈ stPropW.nested_dict, pyLookup stPropW.group_dict p.1 = none) ∧
     (∀ p ∈ stPropW.nested_dict, chainTerm stPropW.nested_dict 2 (some p.2) = true) ∧
     2 + 1 ≤ 3) ∧
    ∀ p ∈ stPropW.nested_dict,
      pyLookup (FindNestedClassGroups 3 stPropW).group_dict p.1 =
        GetGroup stPropW.group_dict stPropW.nested_dict 3 (some p.2) :=
  ⟨⟨by decide, by decide, by decide, by decide⟩,
   C5_nearest_enclosing_group stPropW 2 3 (by decide) (by decide) (by decide) (by decide)⟩

/-! ## Claim C7 -/

/-- C7 (counterexample): group propagation is not idempotent on the code.  In
the nesting `A ⊂ B ⊂ C` with `B` directly in `G1` and `C` directly in `G2`,
one pass assigns `A ↦ G1` (reading `B`'s binding before it is overwritten),
but a second pass reassigns `A ↦ G2`. -/
theorem C7_counterexample :
    pyLookup (FindNestedClassGroups 3 ⟨[], [], ndEx, g0Ex⟩).group_dict "A" = some "G1" ∧
    pyLookup (FindNestedClassGroups 3
      (FindNestedClassGroups 3 ⟨[], [], ndEx, g0Ex⟩)).group_dict "A" = some "G2" ∧
    FindNestedClassGroups 3 (FindNestedClassGroups 3 ⟨[], [], ndEx, g0Ex⟩) ≠
      FindNestedClassGroups 3 ⟨[], [], ndEx, g0Ex⟩ := by decide

/-- C7 (amended): group propagation is idempotent provided no nesting key
carries a direct group membership before the first pass (and the nesting
relation is finite-keyed with upward walks terminating within the fuel);
without that proviso a second pass can change the map, as the counterexample
shows. -/
theorem C7_idempotent_when_nested_ungrouped (st : GState) (L F : Nat)
    (hnd : (st.nested_dict.map Prod.fst).Nodup)
    (h2 : ∀ p ∈ st.nested_dict, pyLookup st.group_dict p.1 = none)
    (h3 : ∀ p ∈ st.nested_dict, chainTerm st.nested_dict L (some p.2) = true)
    (hF : L + 1 ≤ F) :
    FindNestedClassGroups F (FindNestedClassGroups F st) = FindNestedClassGroups F st := by
  obtain ⟨rd, dd, ndd, gd⟩ := st
  simp only [FindNestedClassGroups] at *
  rw [propagateFrom_idem hnd h2 h3 hF]

/-- C7 (witness): the amended theorem applied to the concrete state
`A ⊂ B ⊂ C` with only `C` grouped. -/
theorem C7_witness :
    ((stPropW.nested_dict.map Prod.fst).Nodup ∧
     (∀ p ∈ stPropW.nested_dict, pyLookup stPropW.group_dict p.1 = none) ∧
     (∀ p ∈ stPropW.nested_dict, chainTerm stPropW.nested_dict 2 (some p.2) = true) ∧
     2 + 1 ≤ 3) ∧
    FindNestedClassGroups 3 (FindNestedClassGroups 3 stPropW) = FindNestedClassGroups 3 stPropW :=
  ⟨⟨by decide, by decide, by decide, by decide⟩,
   C7_idempotent_when_nested_ungrouped stPropW 2 3 (by decide) (by decide) (by decide) (by decide)⟩

/-! ## Claim C9 -/

/-- Folding `_AddDependency` preserves the edge-set invariant: no target set
contains its own source, and no target set contains duplicates. -/
theorem depFold_invariant :
    ∀ (ops : List (String × String)) (st : GState),
      (∀ k targets, pyLookup st.dep_dict k = some targets → k ∉ targets ∧ targets.Nodup) →
      ∀ k targets, pyLookup (depFold ops st).dep_dict k = some targets →
        k ∉ targets ∧ targets.Nodup := by
  intro ops
  induction ops with
  | nil => intro st h; exact h
  | cons p rest ih =>
    intro st h
    apply ih
    intro k targets hlk
    by_cases hpq : p.1 = p.2
    · rw [AddDependency, if_pos hpq] at hlk
      exact h k targets hlk
    · rw [AddDependency, if_neg hpq] at hlk
      simp only at hlk
      rw [pyLookup_pyUpdate] at hlk
      by_cases hk : p.1 = k
      · subst hk
        rw [if_pos rfl] at hlk
        have hs : p.1 ∉ (pyLookup st.dep_dict p.1).getD [] ∧
            ((pyLookup st.dep_dict p.1).getD []).Nodup := by
          cases hl : pyLookup st.dep_dict p.1 with
          | none => simp
          | some s0 => simpa using h p.1 s0 hl
        simp only [Option.some.injEq] at hlk
        subst hlk
        by_cases hmem : p.2 ∈ (pyLookup st.dep_dict p.1).getD []
        · rw [if_pos hmem]
          exact hs
        · rw [if_neg hmem]
          constructor
          · simp only [List.mem_append, List.mem_singleton, not_or]
            exact ⟨hs.1, hpq⟩
          · simp [List.nodup_append, hs.2, hmem]
      · rw [if_neg hk] at hlk
        exact h k targets hlk

/-- C9 (confirmed): a self-edge insertion is a silent no-op on the whole
state, and after any sequence of edge additions starting from the empty
state, no source's target set contains the source itself and every ordered
pair is recorded at most once (target sets are duplicate-free). -/
theorem C9_no_self_edges_dedup :
    (∀ (st : GState) (a : String), AddDependency st a a = st) ∧
    (∀ (ops : List (String × String)) (k : String) (targets : List String),
      pyLookup (depFold ops emptyGState).dep_dict k = some targets →
      k ∉ targets ∧ targets.Nodup) := by
  constructor
  · intro st a
    rw [AddDependency, if_pos rfl]
  · intro ops k targets h
    refine depFold_invariant ops emptyGState ?_ k targets h
    intro k2 t2 h2
    simp [emptyGState, pyLookup] at h2

/-- C9 (witness): replaying the additions `a→b`, `a→b` again, and the
self-edge `a→a` records the single edge `a→b`. -/
theorem C9_witness :
    pyLookup (depFold [("a", "b"), ("a", "b"), ("a", "a")] emptyGState).dep_dict "a" =
      some ["b"] ∧
    ("a" ∉ (["b"] : List String) ∧ (["b"] : List String).Nodup) :=
  ⟨by decide,
   C9_no_self_edges_dedup.2 [("a", "b"), ("a", "b"), ("a", "a")] "a" ["b"] (by decide)⟩

/-! ## Claim C10 -/

set_option maxRecDepth 10000 in
/-- C10 (confirmed): on the concrete corpus `corpusC10`, the `referencedby`
key `ghost_1a2b` is stripped at its last underscore to `ghost`, which is not
a registered reference key; the call-reference rule records it as a
dependency source anyway, and graph assembly then indexes the registry with
it and fails (`ref_dict[refid]` raises `KeyError`), producing no output
instead of skipping the edge. -/
theorem C10_unregistered_source_failure :
    rsplitLast "ghost_1a2b" = "ghost" ∧
    pyLookup (ProcessIndexFile corpusC10 none).dep_dict "ghost" = some ["classA"] ∧
    pyLookup (ProcessIndexFile corpusC10 none).ref_dict "ghost" = none ∧
    CollectDependencies none (ProcessIndexFile corpusC10 none).ref_dict
      (ProcessIndexFile corpusC10 none).dep_dict = none ∧
    OutputDotGraph none 1 (ProcessIndexFile corpusC10 none) = none := by decide

/-! ## Claim C1 -/

/-- C1 (counterexample): the claim says a missing or unparsable root index is
fatal and no graph artifact — not even an empty one — is produced.  On the
corpus with no readable index the run still produces the artifact: an empty
graph made of the header and footer lines. -/
theorem C1_counterexample :
    noIndexCorpus.index = none ∧
    OutputDotGraph none 1 (ProcessIndexFile noIndexCorpus none) =
      some ["digraph dependencies \x7b",
            " rankdir=\"LR\";",
            " concentrate=true;",
            " node [shape=record, fontname=Verdana, fontsize=10, margin=.1, width=.2, height=.2];",
            "\x7d"] := by decide

/-- C1 (amended): when the root index record cannot be located or parsed, the
failure is not fatal to the artifact: processing just leaves the registry and
relations empty, and the run still writes a graph artifact consisting of the
graph header and the closing footer (an empty graph) for any flag settings. -/
theorem C1_empty_graph_on_missing_index (c : Corpus) (tns : Option String) (fuel : Nat)
    (h : c.index = none) :
    OutputDotGraph tns fuel (ProcessIndexFile c tns) =
      some ["digraph dependencies \x7b",
            " rankdir=\"LR\";",
            " concentrate=true;",
            " node [shape=record, fontname=Verdana, fontsize=10, margin=.1, width=.2, height=.2];",
            "\x7d"] := by
  have hempty : ProcessIndexFile c tns = emptyGState := by
    unfold ProcessIndexFile
    rw [h]
  rw [hempty]
  rfl

/-- C1 (witness): the amended theorem applied to the concrete corpus with no
readable index, a configured namespace, and a different fuel. -/
theorem C1_witness :
    noIndexCorpus.index = none ∧
    OutputDotGraph (some "Proj") 7 (ProcessIndexFile noIndexCorpus (some "Proj")) =
      some ["digraph dependencies \x7b",
            " rankdir=\"LR\";",
            " concentrate=true;",
            " node [shape=record, fontname=Verdana, fontsize=10, margin=.1, width=.2, height=.2];",
            "\x7d"] :=
  ⟨rfl, C1_empty_graph_on_missing_index noIndexCorpus (some "Proj") 7 rfl⟩

/-! ## Claim C3 -/

set_option maxRecDepth 10000 in
/-- C3 (code evaluation at the failing input): on `corpusC3` the class `k2`
(`Inner`) is a member of group `g1` (`GroupG`), yet the ungrouped-entities
list contains it — `_CollectUngroupedClasses` skips refids that are *group
keys* of the subgraph dictionary (`refid in subgraph_dict`), not refids that
are *members* of a group, contradicting its own docstring ("all classes not
inside groups") and comment ("In a group, so skip it").  The rendered output
therefore declares the `Inner` node twice: once inside the cluster and once
at top level. -/
theorem C3_code_eval :
    pyLookup (ProcessIndexFile corpusC3 none).group_dict "k2" = some "g1" ∧
    GetSubgraphDict (FindNestedClassGroups 1 (ProcessIndexFile corpusC3 none)).group_dict =
      [("g1", ["k2"])] ∧
    CollectUngroupedClasses none (ProcessIndexFile corpusC3 none).ref_dict
      (GetSubgraphDict (FindNestedClassGroups 1 (ProcessIndexFile corpusC3 none)).group_dict) =
      [⟨"Inner", "Inner"⟩] ∧
    OutputDotGraph none 1 (ProcessIndexFile corpusC3 none) =
      some ["digraph dependencies \x7b",
            " rankdir=\"LR\";",
            " concentrate=true;",
            " node [shape=record, fontname=Verdana, fontsize=10, margin=.1, width=.2, height=.2];",
            " subgraph cluster_0 \x7b",
            "   label     = \"GroupG\";",
            "   labeljust = r;",
            "   color     = darkorange;",
            "   fontcolor = darkorange;",
            "   fontsize  = 12;",
            "   fontname  = \"Verdana\";",
            "   penwidth  = 2;",
            "   \"Inner\" [URL=\"\\ref Inner\", fontcolor=blue];",
            " \x7d",
            " \"Inner\" [URL=\"\\ref Inner\", fontcolor=blue];",
            "\x7d"] := by decide

/-! ## Claim C4 -/

/-- Removing a common prefix does not change prefix testing. -/
theorem isPrefixOf_append_same :
    ∀ (p a b : List Char), (p ++ a).isPrefixOf (p ++ b) = a.isPrefixOf b := by
  intro p
  induction p with
  | nil => intro a b; rfl
  | cons c cs ih => intro a b; simp [List.isPrefixOf, ih]

/-- A list is a prefix of itself followed by anything. -/
theorem isPrefixOf_self_append : ∀ (p l : List Char), p.isPrefixOf (p ++ l) = true := by
  intro p
  induction p with
  | nil => intro l; cases l <;> rfl
  | cons c cs ih => intro l; simp [List.isPrefixOf, ih]

/-- The skip counter of `removeAllGo` drops that many characters. -/
theorem removeAllGo_skip (pat : List Char) :
    ∀ (s : List Char) (k : Nat), removeAllGo pat s k = removeAllGo pat (s.drop k) 0 := by
  intro s
  induction s with
  | nil => intro k; cases k <;> rfl
  | cons c rest ih =>
    intro k
    cases k with
    | zero => rfl
    | succ k => simp only [removeAllGo, List.drop_succ_cons, ih k]

/-- Removing all occurrences of a non-empty pattern from the pattern followed
by a tail removes the leading occurrence and continues on the tail. -/
theorem removeAll_append_self {pat : List Char} (hne : pat ≠ []) (l : List Char) :
    removeAll pat (pat ++ l) = removeAll pat l := by
  cases pat with
  | nil => cases hne rfl
  | cons c cs =>
    unfold removeAll
    have hpre : (c :: cs).isPrefixOf (c :: (cs ++ l)) = true := by
      simp [List.isPrefixOf, isPrefixOf_self_append cs l]
    simp only [List.cons_append, removeAllGo, hpre, hne, List.length_cons]
    rw [if_pos ⟨hne, hpre⟩]
    rw [removeAllGo_skip]
    simp

/-- C4 (counterexample): the claim says the short-name transform strips the
`target_namespace + separator` prefix once for either recognized separator
and alters nothing else.  With namespace `Proj`, the dot-separated name
`Proj.Widget` (which the inclusion rule admits) is returned unchanged rather
than shortened to `Widget`, and `Proj::A::Proj::B` becomes `A::B`: the
interior occurrence of `Proj::` is removed too, not just the prefix. -/
theorem C4_counterexample :
    IncludeName (some "Proj") "Proj.Widget" = true ∧
    GetShortName (some "Proj") "Proj.Widget" = "Proj.Widget" ∧
    GetShortName (some "Proj") "Proj.Widget" ≠ "Widget" ∧
    GetShortName (some "Proj") "Proj::A::Proj::B" = "A::B" ∧
    GetShortName (some "Proj") "Proj::A::Proj::B" ≠ "A::Proj::B" := by decide

/-- C4 (amended): for every configured target namespace, the short-name
transform (a) returns every name that does not start with
`namespace + "::"` unchanged — in particular every name using the dot
separator, which the inclusion rule nevertheless admits — and (b) on a name
starting with `namespace + "::"` it removes the leading occurrence and then
also removes every further left-to-right occurrence of `namespace + "::"`
from the remainder, rather than stripping the prefix exactly once. -/
theorem C4_shortname_behavior (t : String) :
    (∀ full_name, strStartsWith full_name (t ++ "::") = false →
      GetShortName (some t) full_name = full_name) ∧
    (∀ rest, GetShortName (some t) (t ++ "::" ++ rest) =
      String.mk (removeAll (t ++ "::").data rest.data)) ∧
    (∀ n, IncludeName (some t) (t ++ "." ++ n) = true ∧
      GetShortName (some t) (t ++ "." ++ n) = t ++ "." ++ n) := by
  have hne : (t ++ "::").data ≠ [] := by
    rw [String.data_append]
    simp
  have hGS : ∀ x : String, GetShortName (some t) x =
      if strStartsWith x (t ++ "::") then String.mk (removeAll (t ++ "::").data x.data)
      else x := fun _ => rfl
  have hInc : ∀ x : String, IncludeName (some t) x =
      (strStartsWith x (t ++ "::") || strStartsWith x (t ++ ".")) := fun _ => rfl
  refine ⟨?_, ?_, ?_⟩
  · intro full_name h
    rw [hGS full_name, if_neg (by rw [h]; exact Bool.false_ne_true)]
  · intro rest
    have hsw : strStartsWith (t ++ "::" ++ rest) (t ++ "::") = true := by
      unfold strStartsWith
      rw [String.data_append]
      exact isPrefixOf_self_append _ _
    rw [hGS (t ++ "::" ++ rest), if_pos hsw, String.data_append (t ++ "::") rest,
      removeAll_append_self hne]
  · intro n
    have hdot : strStartsWith (t ++ "." ++ n) (t ++ "::") = false := by
      unfold strStartsWith
      rw [String.data_append, String.data_append, String.data_append, List.append_assoc]
      rw [isPrefixOf_append_same]
      rfl
    constructor
    · have hdot2 : strStartsWith (t ++ "." ++ n) (t ++ ".") = true := by
        unfold strStartsWith
        rw [String.data_append]
        exact isPrefixOf_self_append _ _
      rw [hInc (t ++ "." ++ n), hdot, hdot2]
      rfl
    · rw [hGS (t ++ "." ++ n), if_neg (by rw [hdot]; exact Bool.false_ne_true)]

/-- C4 (witness): the amended theorem applied with namespace `Proj` to a
non-matching name, a name with an interior occurrence, and a dot-separated
name. -/
theorem C4_witness :
    (strStartsWith "Other::Gadget" ("Proj" ++ "::") = false ∧
     GetShortName (some "Proj") "Other::Gadget" = "Other::Gadget") ∧
    GetShortName (some "Proj") ("Proj" ++ "::" ++ "A::Proj::B") =
      String.mk (removeAll ("Proj" ++ "::").data "A::Proj::B".data) ∧
    (IncludeName (some "Proj") ("Proj" ++ "." ++ "Widget") = true ∧
     GetShortName (some "Proj") ("Proj" ++ "." ++ "Widget") = "Proj" ++ "." ++ "Widget") :=
  ⟨⟨by decide, (C4_shortname_behavior "Proj").1 "Other::Gadget" (by decide)⟩,
   (C4_shortname_behavior "Proj").2.1 "A::Proj::B",
   (C4_shortname_behavior "Proj").2.2 "Widget"⟩

/-! ## Claim C2 -/

set_option maxRecDepth 10000 in
/-- C2 (counterexample): the claim says an entity failing the namespace
inclusion rule is excluded entirely and never appears as a dependency target.
On `corpusC2` with namespace `Proj`, the excluded entity `Other::Gadget` is
nevertheless registered by the index pass, so the target filter (which only
checks registry membership) keeps it: the emitted artifact contains the edge
statement pointing at `"Other::Gadget"` while the entity has no node
declaration. -/
theorem C2_counterexample :
    IncludeName (some "Proj") "Other::Gadget" = false ∧
    CollectDependencies (some "Proj") (ProcessIndexFile corpusC2 (some "Proj")).ref_dict
      (ProcessIndexFile corpusC2 (some "Proj")).dep_dict =
      some [⟨"Widget", ["Other::Gadget"]⟩] ∧
    OutputDotGraph (some "Proj") 1 (ProcessIndexFile corpusC2 (some "Proj")) =
      some ["digraph dependencies \x7b",
            " rankdir=\"LR\";",
            " concentrate=true;",
            " node [shape=record, fontname=Verdana, fontsize=10, margin=.1, width=.2, height=.2];",
            " \"Widget\" [URL=\"\\ref Proj::Widget\", fontcolor=blue];",
            " \"Widget\" -> \x7b \"Other::Gadget\" \x7d;",
            "\x7d"] := by decide

/-- C2 (amended): what the assembler drops when building each entity's target
list is exactly the dangling references to *unregistered* refids: every label
in an assembled target list is the short name of some registered entity's
name.  A namespace-excluded entity that is registered by the index can still
appear as a dependency target (with its full, unshortened name), as the
counterexample shows. -/
theorem C2_registered_targets_only (tns : Option String) (ref_dict : List (String × String))
    (dep_dict : List (String × List String)) (ds : List Writer.Dependencies)
    (h : CollectDependencies tns ref_dict dep_dict = some ds) :
    ∀ d ∈ ds, ∀ lbl ∈ d.dependency_labels,
      ∃ r nm, pyLookup ref_dict r = some nm ∧ lbl = GetShortName tns nm := by
  intro d hd lbl hlbl
  rcases mapOpt_mem h d hd with ⟨refid, _, hf⟩
  cases hnm : pyLookup ref_dict refid with
  | none => rw [hnm] at hf; cases hf
  | some nm0 =>
    rw [hnm] at hf
    simp only [Option.map_some', Option.some.injEq] at hf
    subst hf
    have hl2 : lbl ∈ ((pyLookup dep_dict refid).getD []).filterMap
        (fun dep => (pyLookup ref_dict dep).map (GetShortName tns)) := mem_sortStr.mp hlbl
    rcases List.mem_filterMap.mp hl2 with ⟨dep, _, hdep⟩
    cases hnm2 : pyLookup ref_dict dep with
    | none => rw [hnm2] at hdep; cases hdep
    | some nm =>
      rw [hnm2] at hdep
      simp only [Option.map_some', Option.some.injEq] at hdep
      exact ⟨dep, nm, hnm2, hdep.symm⟩

/-! ## Claim C8 -/

/-- A successful lookup exhibits a member of the association list. -/
theorem pyLookup_mem {α : Type} {l : List (String × α)} {k : String} {v : α}
    (h : pyLookup l k = some v) : (k, v) ∈ l := by
  induction l with
  | nil => simp [pyLookup] at h
  | cons p rest ih =>
    obtain ⟨p1, p2⟩ := p
    by_cases hp : p1 = k
    · subst hp
      simp only [pyLookup, if_true] at h
      simp only [Option.some.injEq] at h
      rw [← h]
      exact List.mem_cons_self _ _
    · simp only [pyLookup, hp, if_false] at h
      exact List.mem_cons_of_mem _ (ih h)

/-- Specification of the inner loop of `ReportCycles` for one source row:
when every target that has a back edge is registered (as is the row's
source), the row reports exactly the pairs `(key, dep)` with `dep` among the
row's targets and a recorded edge `dep → key`. -/
theorem cycleRow_spec (st : GState) (key : String) :
    ∀ (targets : List String),
      (∀ d ∈ targets, edgeRecorded st.dep_dict d key = true →
        (pyLookup st.ref_dict key).isSome = true ∧ (pyLookup st.ref_dict d).isSome = true) →
      ∃ l, CycleRow st key targets = some l ∧
        ∀ a b, ((a, b) ∈ l ↔ a = key ∧ b ∈ targets ∧ edgeRecorded st.dep_dict b key = true) := by
  intro targets
  induction targets with
  | nil =>
    intro _
    refine ⟨[], rfl, ?_⟩
    intro a b
    simp
  | cons dep rest ih =>
    intro hreg
    rcases ih (fun d hd he => hreg d (List.mem_cons_of_mem dep hd) he) with ⟨l, hl, hspec⟩
    by_cases hcyc : edgeRecorded st.dep_dict dep key = true
    · rcases hreg dep (List.mem_cons_self dep rest) hcyc with ⟨hk, hd⟩
      rcases Option.isSome_iff_exists.mp hk with ⟨nk, hnk⟩
      rcases Option.isSome_iff_exists.mp hd with ⟨ndp, hndp⟩
      have hdd : ∃ ts2, pyLookup st.dep_dict dep = some ts2 ∧ key ∈ ts2 := by
        unfold edgeRecorded at hcyc
        cases hq : pyLookup st.dep_dict dep with
        | none => rw [hq] at hcyc; cases hcyc
        | some ts2 =>
          rw [hq] at hcyc
          exact ⟨ts2, rfl, by simpa using hcyc⟩
      rcases hdd with ⟨ts2, hts2, hkin⟩
      refine ⟨(key, dep) :: l, ?_, ?_⟩
      · simp only [CycleRow, hts2, if_pos hkin, hnk, hndp, hl, Option.map_some']
      · intro a b
        constructor
        · intro hab
          rcases List.mem_cons.mp hab with heq | hmem
          · rw [Prod.mk.injEq] at heq
            refine ⟨heq.1, ?_, ?_⟩
            · rw [heq.2]; exact List.mem_cons_self dep rest
            · rw [heq.2]; exact hcyc
          · rcases (hspec a b).mp hmem with ⟨ha, hb, he⟩
            exact ⟨ha, List.mem_cons_of_mem dep hb, he⟩
        · rintro ⟨rfl, hb, he⟩
          rcases List.mem_cons.mp hb with rfl | hb2
          · exact List.mem_cons_self _ _
          · exact List.mem_cons_of_mem _ ((hspec _ b).mpr ⟨rfl, hb2, he⟩)
    · have hrow : CycleRow st key (dep :: rest) = CycleRow st key rest := by
        cases hq : pyLookup st.dep_dict dep with
        | none => simp only [CycleRow, hq]
        | some ts2 =>
          have hnotin : key ∉ ts2 := by
            intro hin
            refine hcyc ?_
            unfold edgeRecorded
            rw [hq]
            simpa using hin
          simp only [CycleRow, hq, if_neg hnotin]
      refine ⟨l, hrow.trans hl, ?_⟩
      intro a b
      rw [hspec a b]
      constructor
      · rintro ⟨ha, hb, he⟩
        exact ⟨ha, List.mem_cons_of_mem dep hb, he⟩
      · rintro ⟨ha, hb, he⟩
        rcases List.mem_cons.mp hb with rfl | hb2
        · exact absurd he hcyc
        · exact ⟨ha, hb2, he⟩

/-- Specification of `ReportCycles` over a list of rows: it reports exactly
the pairs `(a, b)` such that some row `(a, ts)` lists `b` as a target and a
back edge `b → a` is recorded. -/
theorem reportCycles_spec (st : GState) :
    ∀ rows : List (String × List String),
      (∀ p ∈ rows, ∀ d ∈ p.2, edgeRecorded st.dep_dict d p.1 = true →
        (pyLookup st.ref_dict p.1).isSome = true ∧ (pyLookup st.ref_dict d).isSome = true) →
      ∃ l, ReportCycles st rows = some l ∧
        ∀ a b, ((a, b) ∈ l ↔
          ∃ ts, (a, ts) ∈ rows ∧ b ∈ ts ∧ edgeRecorded st.dep_dict b a = true) := by
  intro rows
  induction rows with
  | nil =>
    intro _
    refine ⟨[], rfl, ?_⟩
    intro a b
    simp
  | cons p rest ih =>
    intro hreg
    obtain ⟨key, ts⟩ := p
    rcases cycleRow_spec st key ts
        (fun d hd he => hreg (key, ts) (List.mem_cons_self _ _) d hd he) with ⟨l1, hrow, hrspec⟩
    rcases ih (fun q hq => hreg q (List.mem_cons_of_mem _ hq)) with ⟨l2, hrest, hrestspec⟩
    refine ⟨l1 ++ l2, ?_, ?_⟩
    · unfold ReportCycles
      rw [hrow, hrest]
      rfl
    · intro a b
      rw [List.mem_append]
      constructor
      · rintro (h1 | h2)
        · rcases (hrspec a b).mp h1 with ⟨rfl, hb, he⟩
          exact ⟨ts, List.mem_cons_self _ _, hb, he⟩
        · rcases (hrestspec a b).mp h2 with ⟨ts2, hts2, hb, he⟩
          exact ⟨ts2, List.mem_cons_of_mem _ hts2, hb, he⟩
      · rintro ⟨ts2, hts2, hb, he⟩
        rcases List.mem_cons.mp hts2 with heq | hmem
        · rw [Prod.mk.injEq] at heq
          left
          exact (hrspec a b).mpr ⟨heq.1, heq.2 ▸ hb, heq.1 ▸ he⟩
        · right
          exact (hrestspec a b).mpr ⟨ts2, hmem, hb, he⟩

/-- C8 (confirmed): when every pair of entities involved in a mutual edge is
registered (so the report's name lookups cannot fail) and the dependency
dictionary has no duplicate keys (as a Python dict guarantees), the cycle
reporter reports a cycle exactly for the ordered pairs `(a, b)` with both
`a → b` and `b → a` recorded — and hence never for membership in a longer
cycle only. -/
theorem C8_cycle_pairs (st : GState)
    (hnodup : (st.dep_dict.map Prod.fst).Nodup)
    (hreg : ∀ p ∈ st.dep_dict, ∀ d ∈ p.2, edgeRecorded st.dep_dict d p.1 = true →
      (pyLookup st.ref_dict p.1).isSome = true ∧ (pyLookup st.ref_dict d).isSome = true) :
    ∃ l, ReportCycles st st.dep_dict = some l ∧
      ∀ a b, ((a, b) ∈ l ↔
        edgeRecorded st.dep_dict a b = true ∧ edgeRecorded st.dep_dict b a = true) := by
  rcases reportCycles_spec st st.dep_dict hreg with ⟨l, hl, hspec⟩
  refine ⟨l, hl, ?_⟩
  intro a b
  rw [hspec a b]
  constructor
  · rintro ⟨ts, hts, hb, he⟩
    refine ⟨?_, he⟩
    unfold edgeRecorded
    rw [pyLookup_of_mem_nodup hnodup hts]
    simpa using hb
  · rintro ⟨hab, hba⟩
    unfold edgeRecorded at hab
    cases hla : pyLookup st.dep_dict a with
    | none => rw [hla] at hab; cases hab
    | some ts =>
      rw [hla] at hab
      exact ⟨ts, pyLookup_mem hla, by simpa using hab, hba⟩

/-- C8 (witness): the theorem applied to the concrete state with the direct
cycle `a ↔ b` and the longer cycle `b → c → d → b`. -/
theorem C8_witness :
    ((stC8.dep_dict.map Prod.fst).Nodup ∧
     (∀ p ∈ stC8.dep_dict, ∀ d ∈ p.2, edgeRecorded stC8.dep_dict d p.1 = true →
       (pyLookup stC8.ref_dict p.1).isSome = true ∧
       (pyLookup stC8.ref_dict d).isSome = true)) ∧
    ∃ l, ReportCycles stC8 stC8.dep_dict = some l ∧
      ∀ a b, ((a, b) ∈ l ↔
        edgeRecorded stC8.dep_dict a b = true ∧ edgeRecorded stC8.dep_dict b a = true) :=
  ⟨⟨by decide, by decide⟩, C8_cycle_pairs stC8 (by decide) (by decide)⟩

set_option maxRecDepth 10000 in
/-- C2 (witness): the amended theorem applied to the state produced from
`corpusC2`. -/
theorem C2_witness :
    CollectDependencies (some "Proj") (ProcessIndexFile corpusC2 (some "Proj")).ref_dict
      (ProcessIndexFile corpusC2 (some "Proj")).dep_dict =
      some [⟨"Widget", ["Other::Gadget"]⟩] ∧
    (∀ d ∈ ([⟨"Widget", ["Other::Gadget"]⟩] : List Writer.Dependencies),
      ∀ lbl ∈ d.dependency_labels,
      ∃ r nm, pyLookup (ProcessIndexFile corpusC2 (some "Proj")).ref_dict r = some nm ∧
        lbl = GetShortName (some "Proj") nm) :=
  ⟨by decide,
   C2_registered_targets_only (some "Proj") (ProcessIndexFile corpusC2 (some "Proj")).ref_dict
     (ProcessIndexFile corpusC2 (some "Proj")).dep_dict [⟨"Widget", ["Other::Gadget"]⟩]
     (by decide)⟩

/-! ## Claim C6 -/

/-- Dependency assembly is invariant under re-enumeration of the target sets:
the same keys in the same order, with each key's target list permuted, give
the same assembled dependency list, because the assembler sorts both the
source keys and the target short names. -/
theorem collectDependencies_perm (tns : Option String) (rd : List (String × String))
    (dd1 dd2 : List (String × List String))
    (hkeys : dd1.map Prod.fst = dd2.map Prod.fst)
    (hperm : ∀ k ∈ dd1.map Prod.fst, optPerm (pyLookup dd1 k) (pyLookup dd2 k)) :
    CollectDependencies tns rd dd1 = CollectDependencies tns rd dd2 := by
  unfold CollectDependencies
  rw [← hkeys]
  apply mapOpt_congr
  intro refid hr
  have hp := hperm refid (mem_sortStr.mp hr)
  cases h1 : pyLookup dd1 refid with
  | none =>
    cases h2 : pyLookup dd2 refid with
    | none => rfl
    | some l2 =>
      rw [h1, h2] at hp
      cases hp
  | some l1 =>
    cases h2 : pyLookup dd2 refid with
    | none =>
      rw [h1, h2] at hp
      cases hp
    | some l2 =>
      rw [h1, h2] at hp
      have hperm2 : l1.Perm l2 := hp
      have hsort : sortStr (l1.filterMap (fun dep => (pyLookup rd dep).map (GetShortName tns))) =
          sortStr (l2.filterMap (fun dep => (pyLookup rd dep).map (GetShortName tns))) :=
        sortStr_eq_of_perm (hperm2.filterMap _)
      simp only [Option.getD_some, hsort]

/-- C6 (confirmed): the artifact is byte-for-byte deterministic.  Between two
runs over byte-identical input records and identical flags, every part of the
state is identical — dictionaries get their keys in input order — except the
enumeration order of the dependency target sets, which are hash-order Python
sets; for two states that differ only by such re-enumerations, the rendered
output is identical (no timestamps exist, and every set is sorted before
emission). -/
theorem C6_deterministic_output (tns : Option String) (fuel : Nat) (st1 st2 : GState)
    (href : st1.ref_dict = st2.ref_dict)
    (hnest : st1.nested_dict = st2.nested_dict)
    (hgrp : st1.group_dict = st2.group_dict)
    (hkeys : st1.dep_dict.map Prod.fst = st2.dep_dict.map Prod.fst)
    (hperm : ∀ k ∈ st1.dep_dict.map Prod.fst,
      optPerm (pyLookup st1.dep_dict k) (pyLookup st2.dep_dict k)) :
    OutputDotGraph tns fuel st1 = OutputDotGraph tns fuel st2 := by
  obtain ⟨rd1, dd1, nd1, gd1⟩ := st1
  obtain ⟨rd2, dd2, nd2, gd2⟩ := st2
  dsimp only at href hnest hgrp hkeys hperm
  subst href hnest hgrp
  have hcd : CollectDependencies tns rd1 dd1 = CollectDependencies tns rd1 dd2 :=
    collectDependencies_perm tns rd1 dd1 dd2 hkeys hperm
  unfold OutputDotGraph FindNestedClassGroups
  dsimp only
  rw [hcd]

/-- C6 (witness): the theorem applied to two states that differ only in the
enumeration order of the single dependency target set. -/
theorem C6_witness :
    (st6a.ref_dict = st6b.ref_dict ∧ st6a.nested_dict = st6b.nested_dict ∧
     st6a.group_dict = st6b.group_dict ∧
     st6a.dep_dict.map Prod.fst = st6b.dep_dict.map Prod.fst ∧
     (∀ k ∈ st6a.dep_dict.map Prod.fst,
       optPerm (pyLookup st6a.dep_dict k) (pyLookup st6b.dep_dict k))) ∧
    OutputDotGraph none 2 st6a = OutputDotGraph none 2 st6b :=
  ⟨⟨rfl, rfl, rfl, rfl, by decide⟩,
   C6_deterministic_output none 2 st6a st6b rfl rfl rfl rfl (by decide)⟩

end Dox
